import Mathlib

/-!
Verification development for the Episode Composition Engine of the
podcaststudiohub repository: layout resolution, timeline computation,
the composition state machine, and the persisted composition record's
database constraints.

The repository ships the engine's data model as a PostgreSQL schema
(`episode_layouts`, `episode_compositions` with their CHECK and UNIQUE
constraints); the resolver and state-machine behaviour are modelled from
the specification's algorithm, as noted on each definition.
-/

namespace PodStudio

/-- Placement kind of a layout segment: pre-roll, post-roll, a percentage
of the main content, or an absolute timestamp within it. -/
inductive SegKind where
  | preRoll : SegKind
  | postRoll : SegKind
  | percentage (p : ℚ) : SegKind
  | timestamp (t : ℚ) : SegKind
deriving DecidableEq, Repr

/-- Role of a layout segment: a reusable snippet by id, or the generated
main-content narration track. -/
inductive SegRole where
  | snippet (snippetId : String) : SegRole
  | mainContent : SegRole
deriving DecidableEq, Repr

/-- One placement rule of a layout template. -/
structure SegmentSpec where
  kind : SegKind
  role : SegRole
  order : Int
deriving DecidableEq, Repr

/-- A layout template: ordered segment specs plus merge options. -/
structure LayoutTemplate where
  segments : List SegmentSpec
  autoNormalize : Bool
  crossfadeDurationSeconds : ℚ
deriving DecidableEq, Repr

/-- A reusable audio snippet as resolved by the snippet repository. -/
structure AudioSnippet where
  id : String
  durationSeconds : ℚ
  sampleRate : Nat
  channels : Nat
  format : String
  sourceRef : String
deriving DecidableEq, Repr

/-- One element of a resolved timeline, with absolute times in seconds. -/
structure ResolvedSegment where
  sourceRef : String
  startTime : ℚ
  endTime : ℚ
  duration : ℚ
  gainAdjustmentDb : ℚ
deriving DecidableEq, Repr

/-- A fully resolved timeline ready for merging. -/
structure Timeline where
  segments : List ResolvedSegment
  totalDurationSeconds : ℚ
deriving DecidableEq, Repr

/-- Validation failures of the layout resolver. -/
inductive ValidationError where
  | unresolvedSnippet (snippetId : String) : ValidationError
  | percentageOutOfRange (p : ℚ) : ValidationError
  | timestampOutOfRange (t : ℚ) : ValidationError
  | missingMainContent : ValidationError
  | duplicateMainContent : ValidationError
deriving DecidableEq, Repr

/-- Look up a snippet by id in the supplied snippet set. -/
def findSnippet (snips : List AudioSnippet) (snippetId : String) : Option AudioSnippet :=
  snips.find? (fun a => a.id = snippetId)

/-- Duration of the snippet with the given id, `0` when absent
(validation rules the absent case out before this is used). -/
def lookupDuration (snips : List AudioSnippet) (snippetId : String) : ℚ :=
  match findSnippet snips snippetId with
  | some a => a.durationSeconds
  | none => 0

/-- `true` when the segment references a snippet id absent from the set. -/
def refAbsent (snips : List AudioSnippet) (s : SegmentSpec) : Bool :=
  match s.role with
  | .snippet snippetId => (findSnippet snips snippetId).isNone
  | .mainContent => false

/-- `true` when the segment's placement kind is out of range:
a percentage outside `[0, 100]` or a timestamp outside `[0, mainDur]`. -/
def kindOutOfRange (mainDur : ℚ) (s : SegmentSpec) : Bool :=
  match s.kind with
  | .percentage p => decide (p < 0) || decide (100 < p)
  | .timestamp t => decide (t < 0) || decide (mainDur < t)
  | .preRoll => false
  | .postRoll => false

/-- The snippet id referenced by a segment (empty for main content). -/
def roleId (s : SegmentSpec) : String :=
  match s.role with
  | .snippet snippetId => snippetId
  | .mainContent => ""

/-- The validation error reported for a segment whose kind is out of range. -/
def rangeError (s : SegmentSpec) : ValidationError :=
  match s.kind with
  | .percentage p => .percentageOutOfRange p
  | .timestamp t => .timestampOutOfRange t
  | .preRoll => .percentageOutOfRange 0
  | .postRoll => .percentageOutOfRange 0

/-- `true` when the segment carries the main-content role. -/
def isMain (s : SegmentSpec) : Bool :=
  match s.role with
  | .snippet _ => false
  | .mainContent => true

/-- Number of main-content segments in the layout. -/
def mainCount (layout : LayoutTemplate) : Nat :=
  (layout.segments.filter isMain).length

/-- Modelled from the spec: the input validation of the layout resolver
(`resolve`, not present in the repository source, whose schema documents
only the validation rules). Checks, in the spec's order: every snippet
reference resolves, every percentage/timestamp is in range, and exactly
one main-content segment exists. -/
def validate (layout : LayoutTemplate) (snips : List AudioSnippet) (mainDur : ℚ) :
    Except ValidationError Unit :=
  match layout.segments.find? (refAbsent snips) with
  | some s => .error (.unresolvedSnippet (roleId s))
  | none =>
    match layout.segments.find? (kindOutOfRange mainDur) with
    | some s => .error (rangeError s)
    | none =>
      match mainCount layout with
      | 0 => .error .missingMainContent
      | 1 => .ok ()
      | _ + 2 => .error .duplicateMainContent

/-- Insert `a` into `l` in front of the first element `b` with `le a b`. -/
def insertLe {α : Type} (le : α → α → Bool) (a : α) : List α → List α
  | [] => [a]
  | b :: bs => if le a b then a :: b :: bs else b :: insertLe le a bs

/-- Insertion sort by the boolean relation `le` (stable for ties). -/
def sortLe {α : Type} (le : α → α → Bool) : List α → List α
  | [] => []
  | a :: as => insertLe le a (sortLe le as)

/-- A mid-placement (percentage or timestamp) converted to an absolute
insertion time within the main content. -/
structure MidPlacement where
  time : ℚ
  order : Int
  snippetId : String
deriving DecidableEq, Repr

/-- Ascending (time, order) comparison on mid-placements. -/
def midLe (a b : MidPlacement) : Bool :=
  decide (a.time < b.time) || (decide (a.time = b.time) && decide (a.order ≤ b.order))

/-- Modelled from the spec: convert each mid-placement (a snippet-role
segment whose kind is a percentage or timestamp) to its absolute
insertion time: `Percentage p ↦ p / 100 * mainDur`, `Timestamp t ↦ t`. -/
def midOf (mainDur : ℚ) (s : SegmentSpec) : Option MidPlacement :=
  match s.role, s.kind with
  | .snippet snippetId, .percentage p => some ⟨p / 100 * mainDur, s.order, snippetId⟩
  | .snippet snippetId, .timestamp t => some ⟨t, s.order, snippetId⟩
  | _, _ => none

/-- The layout's mid-placements, sorted ascending by (time, order). -/
def sortedMids (layout : LayoutTemplate) (mainDur : ℚ) : List MidPlacement :=
  sortLe midLe (layout.segments.filterMap (midOf mainDur))

/-- Snippet-role segments of the given placement kind, as (order, id). -/
def rollsOf (layout : LayoutTemplate) (isKind : SegKind → Bool) : List (Int × String) :=
  layout.segments.filterMap fun s =>
    match s.role with
    | .snippet snippetId => if isKind s.kind then some (s.order, snippetId) else none
    | .mainContent => none

/-- Ascending order comparison on (order, id) pairs. -/
def orderLe (a b : Int × String) : Bool :=
  decide (a.1 ≤ b.1)

/-- Pre-roll snippet ids in ascending `order`. -/
def preRollIds (layout : LayoutTemplate) : List String :=
  (sortLe orderLe (rollsOf layout (fun k => k matches .preRoll))).map (·.2)

/-- Post-roll snippet ids in ascending `order`. -/
def postRollIds (layout : LayoutTemplate) : List String :=
  (sortLe orderLe (rollsOf layout (fun k => k matches .postRoll))).map (·.2)

/-- Modelled from the spec: walk the main-content track left to right,
splitting it at each sorted insertion time and interleaving the
corresponding snippet between consecutive parts. Produces
(sourceRef, duration) pairs; the main track's parts carry ref `"main"`. -/
def splitMain (snips : List AudioSnippet) (mainDur : ℚ) :
    ℚ → List MidPlacement → List (String × ℚ)
  | prev, [] => [("main", mainDur - prev)]
  | prev, m :: rest =>
      ("main", m.time - prev) :: (m.snippetId, lookupDuration snips m.snippetId)
        :: splitMain snips mainDur m.time rest

/-- Modelled from the spec: the full (sourceRef, duration) sequence of the
timeline: pre-roll block, then the interleaved main/mid-roll sequence,
then post-roll block. -/
def segmentDurations (layout : LayoutTemplate) (snips : List AudioSnippet) (mainDur : ℚ) :
    List (String × ℚ) :=
  ((preRollIds layout).map fun i => (i, lookupDuration snips i))
    ++ splitMain snips mainDur 0 (sortedMids layout mainDur)
    ++ ((postRollIds layout).map fun i => (i, lookupDuration snips i))

/-- Computable minimum on ℚ (kernel-reducible, unlike the lattice `min`). -/
def minQ (a b : ℚ) : ℚ := if a ≤ b then a else b

/-- The crossfade overlap configured for an adjacent pair of durations:
`min(crossfadeDurationSeconds, dur_a / 2, dur_b / 2)`. -/
def overlapFor (cf d d2 : ℚ) : ℚ := minQ cf (minQ (d / 2) (d2 / 2))

/-- Overlap between a segment of duration `d` and the next segment of the
remaining list (`0` when the segment is the last one). -/
def restOverlap (cf d : ℚ) : List (String × ℚ) → ℚ
  | [] => 0
  | (_, d2) :: _ => overlapFor cf d d2

/-- Modelled from the spec: assign start/end times sequentially; each
subsequent segment starts at the previous segment's end minus the
crossfade overlap `min(crossfade, dur_a / 2, dur_b / 2)`. -/
def assignTimes (cf : ℚ) : ℚ → List (String × ℚ) → List ResolvedSegment
  | _, [] => []
  | t, (ref, d) :: rest =>
      ⟨ref, t, t + d, d, 0⟩ :: assignTimes cf (t + d - restOverlap cf d rest) rest

/-- End time of the last segment (`0` for an empty timeline). -/
def lastEnd (segs : List ResolvedSegment) : ℚ :=
  match segs.getLast? with
  | some s => s.endTime
  | none => 0

/-- Modelled from the spec: build the resolved timeline of a validated
layout; `totalDurationSeconds` is the final segment's end time. -/
def buildTimeline (layout : LayoutTemplate) (snips : List AudioSnippet) (mainDur : ℚ) :
    Timeline :=
  let segs := assignTimes layout.crossfadeDurationSeconds 0
    (segmentDurations layout snips mainDur)
  ⟨segs, lastEnd segs⟩

/-- Modelled from the spec: the layout resolver
`resolve(layout, snippets, mainContentDuration)`, absent from the
repository source (which documents only its validation rules and the
persisted timeline shape). Validates, then computes the timeline. -/
def resolve (layout : LayoutTemplate) (snips : List AudioSnippet) (mainDur : ℚ) :
    Except ValidationError Timeline :=
  match validate layout snips mainDur with
  | .error e => .error e
  | .ok _ => .ok (buildTimeline layout snips mainDur)

/-- The snippet set of the spec's Scenario A: intro 5s, ad 10s, outro 8s. -/
def scenarioASnips : List AudioSnippet :=
  [⟨"intro", 5, 44100, 2, "mp3", "s3://snips/intro.mp3"⟩,
   ⟨"ad", 10, 44100, 2, "mp3", "s3://snips/ad.mp3"⟩,
   ⟨"outro", 8, 44100, 2, "mp3", "s3://snips/outro.mp3"⟩]

/-- The layout of the spec's Scenario A: pre-roll intro, main content,
mid-roll ad at 50%, post-roll outro; crossfade 0. -/
def scenarioALayout : LayoutTemplate :=
  ⟨[⟨.preRoll, .snippet "intro", 1⟩,
    ⟨.timestamp 0, .mainContent, 2⟩,
    ⟨.percentage 50, .snippet "ad", 3⟩,
    ⟨.postRoll, .snippet "outro", 4⟩], true, 0⟩

/-- Scenario B's layout: Scenario A with `crossfadeDurationSeconds = 2`. -/
def scenarioBLayout : LayoutTemplate :=
  { scenarioALayout with crossfadeDurationSeconds := 2 }

/-- Crossfade overlap lengths of adjacent segment pairs:
`a.endTime - b.startTime` for each adjacent pair `(a, b)`. -/
def overlapsOf : List ResolvedSegment → List ℚ
  | [] => []
  | [_] => []
  | a :: b :: rest => (a.endTime - b.startTime) :: overlapsOf (b :: rest)

/-- Sum of the segments' durations. -/
def durationSum (segs : List ResolvedSegment) : ℚ :=
  (segs.map (·.duration)).sum

/-- The segment list of a resolver result (empty on validation error). -/
def resolvedSegments (r : Except ValidationError Timeline) : List ResolvedSegment :=
  match r with
  | .ok tl => tl.segments
  | .error _ => []

/-- The total duration of a resolver result (`0` on validation error). -/
def resolvedTotal (r : Except ValidationError Timeline) : ℚ :=
  match r with
  | .ok tl => tl.totalDurationSeconds
  | .error _ => 0

/-- Length of each segment's non-overlapped portion: its duration minus
the overlaps it shares with its left and right neighbours; `leftOv` is
the overlap carried in from the previous pair. -/
def nonOverlapAux (leftOv : ℚ) : List ResolvedSegment → List ℚ
  | [] => []
  | [a] => [a.duration - leftOv]
  | a :: b :: rest =>
      (a.duration - leftOv - (a.endTime - b.startTime))
        :: nonOverlapAux (a.endTime - b.startTime) (b :: rest)

/-- Non-overlapped portion lengths of every segment of the timeline. -/
def nonOverlapPortions (segs : List ResolvedSegment) : List ℚ :=
  nonOverlapAux 0 segs

/-- A persisted row of the `episode_compositions` table (the fields the
schema constrains: `episode_id UNIQUE`, `total_duration_seconds`,
`composition_status`). -/
structure CompositionRow where
  episode_id : String
  total_duration_seconds : Option ℚ
  composition_status : String
deriving DecidableEq, Repr

/-- The schema's `compositions_duration_positive` CHECK:
`total_duration_seconds > 0 OR total_duration_seconds IS NULL`. -/
def durationPositive (r : CompositionRow) : Bool :=
  match r.total_duration_seconds with
  | none => true
  | some d => decide (0 < d)

/-- The schema's `compositions_status_check` CHECK:
`composition_status IN ('draft', 'merging', 'completed', 'failed')`. -/
def statusAllowed (r : CompositionRow) : Bool :=
  r.composition_status = "draft" || r.composition_status = "merging"
    || r.composition_status = "completed" || r.composition_status = "failed"

/-- Both CHECK constraints of `episode_compositions`. -/
def rowChecks (r : CompositionRow) : Bool :=
  durationPositive r && statusAllowed r

/-- `true` when the table already holds a row for the episode. -/
def hasEpisode (tbl : List CompositionRow) (eid : String) : Bool :=
  tbl.any (fun r => r.episode_id = eid)

/-- Operations the engine issues against `episode_compositions`. -/
inductive DbOp where
  | insert (r : CompositionRow) : DbOp
  | setDuration (episodeId : String) (d : Option ℚ) : DbOp
  | setStatus (episodeId : String) (st : String) : DbOp
deriving DecidableEq, Repr

/-- Replace the row by its updated version only when the updated version
still satisfies the CHECK constraints (the database rejects it otherwise). -/
def updateIfChecks (old updated : CompositionRow) : CompositionRow :=
  if rowChecks updated then updated else old

/-- Apply one operation to the table; the database rejects (leaves the
table unchanged at) any row violating a CHECK or the UNIQUE key. -/
def applyOp (tbl : List CompositionRow) : DbOp → List CompositionRow
  | .insert r => if rowChecks r && !hasEpisode tbl r.episode_id then tbl ++ [r] else tbl
  | .setDuration eid d => tbl.map fun row =>
      if row.episode_id = eid then
        updateIfChecks row { row with total_duration_seconds := d }
      else row
  | .setStatus eid st => tbl.map fun row =>
      if row.episode_id = eid then
        updateIfChecks row { row with composition_status := st }
      else row

/-- Apply a sequence of operations, left to right. -/
def applyOps (ops : List DbOp) (tbl : List CompositionRow) : List CompositionRow :=
  ops.foldl applyOp tbl

/-- `true` when no two rows of the table share an `episode_id`. -/
def episodesDistinct : List CompositionRow → Bool
  | [] => true
  | r :: rest => !hasEpisode rest r.episode_id && episodesDistinct rest

/-- Lifecycle status of a composition. -/
inductive CompStatus where
  | draft : CompStatus
  | merging : CompStatus
  | completed : CompStatus
  | failed : CompStatus
deriving DecidableEq, Repr

/-- Failures of the audio merge pipeline stages. -/
inductive MergeStageError where
  | decode (segmentRef : String) : MergeStageError
  | formatMismatch : MergeStageError
  | encodeFailed : MergeStageError
deriving DecidableEq, Repr

/-- Error kinds recorded on a failed composition. -/
inductive CompErrorKind where
  | validation (e : ValidationError) : CompErrorKind
  | merge (e : MergeStageError) : CompErrorKind
  | storage : CompErrorKind
  | cancelled : CompErrorKind
  | timeout : CompErrorKind
deriving DecidableEq, Repr

/-- The merged audio artifact produced by a successful merge. -/
structure MergedAudio where
  audioRef : String
  durationSeconds : ℚ
deriving DecidableEq, Repr

/-- The in-memory composition record owned by the state machine. -/
structure Composition where
  episodeId : String
  layoutId : String
  timeline : Option Timeline
  totalDurationSeconds : Option ℚ
  status : CompStatus
  finalAudioRef : Option String
  error : Option CompErrorKind
deriving DecidableEq, Repr

/-- Outcome of a `requestMerge` call. -/
inductive MergeRequestResult where
  | accepted : MergeRequestResult
  | rejectedBusy : MergeRequestResult
  | invalid (e : ValidationError) : MergeRequestResult
deriving DecidableEq, Repr

/-- `true` exactly when the call submitted a merge task. -/
def MergeRequestResult.submitsTask : MergeRequestResult → Bool
  | .accepted => true
  | .rejectedBusy => false
  | .invalid _ => false

/-- Modelled from the spec: `requestMerge(episodeId)` of the composition
state machine (absent from the repository source): admitted only from
`Draft` or `Failed`; validation failures are returned synchronously with
the record untouched; on success the status moves to `Merging` and the
resolved timeline is recorded. -/
def requestMerge (c : Composition) (layout : LayoutTemplate) (snips : List AudioSnippet)
    (mainDur : ℚ) : Composition × MergeRequestResult :=
  if c.status = .draft ∨ c.status = .failed then
    match resolve layout snips mainDur with
    | .error e => (c, .invalid e)
    | .ok tl => ({ c with status := .merging, timeline := some tl }, .accepted)
  else (c, .rejectedBusy)

/-- Modelled from the spec: run the pipeline stages in order; between
stages the cancellation flag and the timeout ceiling are checked, and a
stage may fail with its own error. -/
def runStages (stageResult : Nat → Option MergeStageError) (cancelRequested : Nat → Bool)
    (timedOut : Nat → Bool) : List Nat → Except CompErrorKind Unit
  | [] => .ok ()
  | i :: rest =>
      if cancelRequested i then .error .cancelled
      else if timedOut i then .error .timeout
      else
        match stageResult i with
        | some e => .error (.merge e)
        | none => runStages stageResult cancelRequested timedOut rest

/-- The four pipeline stages: unification, normalization, blend, encode. -/
def pipelineStages : List Nat := [0, 1, 2, 3]

/-- Modelled from the spec: one merge task execution, producing either the
merged audio or the error kind that stopped it. -/
def runMergeTask (stageResult : Nat → Option MergeStageError) (cancelRequested : Nat → Bool)
    (timedOut : Nat → Bool) (output : MergedAudio) : Except CompErrorKind MergedAudio :=
  match runStages stageResult cancelRequested timedOut pipelineStages with
  | .error e => .error e
  | .ok _ => .ok output

/-- Modelled from the spec: record a merge task's outcome on the
composition: `Completed` with the artifact on success, `Failed` with the
error kind otherwise. -/
def finishMerge (c : Composition) (outcome : Except CompErrorKind MergedAudio) : Composition :=
  match outcome with
  | .ok m => { c with status := .completed, finalAudioRef := some m.audioRef,
                      totalDurationSeconds := some m.durationSeconds, error := none }
  | .error e => { c with status := .failed, error := some e }

/-- Modelled from the spec: the atomic compare-and-set admission step of
`requestMerge` against the persisted status. -/
def casToMerging (s : CompStatus) : CompStatus × Bool :=
  if s = .draft ∨ s = .failed then (.merging, true) else (s, false)

/-- `true` when the layout has any of the defects named by the resolver's
failure conditions: an unresolved snippet reference, an out-of-range
percentage or timestamp, or a missing or duplicate main-content segment. -/
def layoutDefective (layout : LayoutTemplate) (snips : List AudioSnippet) (mainDur : ℚ) : Bool :=
  layout.segments.any (refAbsent snips) || layout.segments.any (kindOutOfRange mainDur)
    || decide (mainCount layout = 0) || decide (2 ≤ mainCount layout)

/-- The id of the first segment whose snippet reference does not resolve. -/
def firstAbsentRef (layout : LayoutTemplate) (snips : List AudioSnippet) : Option String :=
  (layout.segments.find? (refAbsent snips)).map roleId

/-- Scenario C's layout: Scenario A's shape but with a mid-roll snippet id
absent from the snippet set. -/
def scenarioCLayout : LayoutTemplate :=
  ⟨[⟨.preRoll, .snippet "intro", 1⟩,
    ⟨.timestamp 0, .mainContent, 2⟩,
    ⟨.percentage 50, .snippet "ghost", 3⟩,
    ⟨.postRoll, .snippet "outro", 4⟩], true, 0⟩

/-- A draft composition used to exercise the state machine. -/
def draftComposition : Composition :=
  ⟨"ep-1", "layout-1", none, none, .draft, none, none⟩

/-- The timeline `resolve` produces for Scenario A. -/
def scenarioATimeline : Timeline :=
  ⟨[⟨"intro", 0, 5, 5, 0⟩, ⟨"main", 5, 55, 50, 0⟩, ⟨"ad", 55, 65, 10, 0⟩,
    ⟨"main", 65, 115, 50, 0⟩, ⟨"outro", 115, 123, 8, 0⟩], 123⟩

/-- Claim C1 (counterexample): resolving Scenario A's layout with
crossfade 0 and main-content duration 100 yields `totalDurationSeconds`
123, not the 173 the claim states, and the resolved timeline is not the
claimed one (whose fourth segment spans `[65, 165)`): splitting the 100s
main content at 50% leaves 50s, not 100s, after the mid-roll. -/
theorem scenarioA_spec_total_mismatch :
    resolvedTotal (resolve scenarioALayout scenarioASnips 100) = 123
    ∧ (123 : ℚ) ≠ 173
    ∧ resolvedSegments (resolve scenarioALayout scenarioASnips 100)
        ≠ [⟨"intro", 0, 5, 5, 0⟩, ⟨"main", 5, 55, 50, 0⟩, ⟨"ad", 55, 65, 10, 0⟩,
           ⟨"main", 65, 165, 100, 0⟩, ⟨"outro", 165, 173, 8, 0⟩] := by
  with_unfolding_all decide

/-- Claim C1 (amended): for the Scenario A layout with crossfade 0,
`resolve` returns the timeline intro `[0,5)`, main `[5,55)`, ad `[55,65)`,
main `[65,115)`, outro `[115,123)`; times are assigned sequentially and
`totalDurationSeconds` is the final segment's end time, 123. -/
theorem scenarioA_resolved_timeline :
    resolvedSegments (resolve scenarioALayout scenarioASnips 100)
      = [⟨"intro", 0, 5, 5, 0⟩, ⟨"main", 5, 55, 50, 0⟩, ⟨"ad", 55, 65, 10, 0⟩,
         ⟨"main", 65, 115, 50, 0⟩, ⟨"outro", 115, 123, 8, 0⟩]
    ∧ resolvedTotal (resolve scenarioALayout scenarioASnips 100) = 123
    ∧ resolvedTotal (resolve scenarioALayout scenarioASnips 100)
        = lastEnd (resolvedSegments (resolve scenarioALayout scenarioASnips 100)) := by
  with_unfolding_all decide

/-- Claim C8: `resolve` is deterministic — two invocations on equal
`(layout, snippet set, mainContentDuration)` triples produce identical
`Timeline` values. -/
theorem resolve_deterministic (l1 l2 : LayoutTemplate) (s1 s2 : List AudioSnippet)
    (d1 d2 : ℚ) (hl : l1 = l2) (hs : s1 = s2) (hd : d1 = d2) :
    resolve l1 s1 d1 = resolve l2 s2 d2 := by
  subst hl; subst hs; subst hd; rfl

/-- Claim C8 witness: determinism at Scenario A's concrete input. -/
theorem resolve_deterministic_witness :
    resolve scenarioALayout scenarioASnips 100 = resolve scenarioALayout scenarioASnips 100 :=
  resolve_deterministic scenarioALayout scenarioALayout scenarioASnips scenarioASnips
    100 100 rfl rfl rfl

/-- Claim C9: raising Scenario A's crossfade from 0 to 2 makes every
adjacent boundary overlap by exactly 2 seconds (every segment is at least
4 seconds long), and the total duration drops from the crossfade-0 total
by `2 × (number of boundaries)`: 123 − 115 = 2 × 4. -/
theorem scenarioB_crossfade_reduction :
    overlapsOf (resolvedSegments (resolve scenarioBLayout scenarioASnips 100)) = [2, 2, 2, 2]
    ∧ resolvedTotal (resolve scenarioBLayout scenarioASnips 100) = 115
    ∧ resolvedTotal (resolve scenarioALayout scenarioASnips 100)
        - resolvedTotal (resolve scenarioBLayout scenarioASnips 100)
      = 2 * ((overlapsOf (resolvedSegments (resolve scenarioBLayout scenarioASnips 100))).length : ℚ)
    ∧ (resolvedSegments (resolve scenarioBLayout scenarioASnips 100)).all
        (fun s => decide (4 ≤ s.duration)) = true := by
  with_unfolding_all decide

theorem bnot_eq_true {b : Bool} : ((!b) = true) = (b = false) := by
  cases b <;> simp

theorem updateIfChecks_ok (old updated : CompositionRow) (h : rowChecks old = true) :
    rowChecks (updateIfChecks old updated) = true := by
  unfold updateIfChecks
  split
  · next hu => exact hu
  · exact h

theorem applyOp_all_checks (tbl : List CompositionRow) (op : DbOp)
    (h : tbl.all rowChecks = true) : (applyOp tbl op).all rowChecks = true := by
  cases op with
  | insert r =>
      simp only [applyOp]
      split
      · next hcond =>
          rw [Bool.and_eq_true] at hcond
          simp [List.all_append, h, hcond.1]
      · exact h
  | setDuration eid d =>
      simp only [applyOp, List.all_eq_true] at h ⊢
      intro x hx
      rcases List.mem_map.mp hx with ⟨row, hrow, rfl⟩
      split
      · exact updateIfChecks_ok _ _ (h row hrow)
      · exact h row hrow
  | setStatus eid st =>
      simp only [applyOp, List.all_eq_true] at h ⊢
      intro x hx
      rcases List.mem_map.mp hx with ⟨row, hrow, rfl⟩
      split
      · exact updateIfChecks_ok _ _ (h row hrow)
      · exact h row hrow

theorem applyOps_all_checks (ops : List DbOp) :
    ∀ tbl, tbl.all rowChecks = true → (applyOps ops tbl).all rowChecks = true := by
  induction ops with
  | nil => intro tbl h; exact h
  | cons op rest ih =>
      intro tbl h
      exact ih _ (applyOp_all_checks tbl op h)

theorem hasEpisode_map_eq (f : CompositionRow → CompositionRow)
    (hf : ∀ r, (f r).episode_id = r.episode_id) (tbl : List CompositionRow) (eid : String) :
    hasEpisode (tbl.map f) eid = hasEpisode tbl eid := by
  induction tbl with
  | nil => rfl
  | cons r rest ih =>
      simp only [List.map_cons, hasEpisode, List.any_cons] at ih ⊢
      rw [hf r, ih]

theorem episodesDistinct_map (f : CompositionRow → CompositionRow)
    (hf : ∀ r, (f r).episode_id = r.episode_id) :
    ∀ tbl, episodesDistinct tbl = true → episodesDistinct (tbl.map f) = true := by
  intro tbl
  induction tbl with
  | nil => intro h; exact h
  | cons r rest ih =>
      intro h
      simp only [episodesDistinct, Bool.and_eq_true, bnot_eq_true] at h ⊢
      exact ⟨by rw [hasEpisode_map_eq f hf, hf r]; exact h.1, ih h.2⟩

theorem hasEpisode_append_single (tbl : List CompositionRow) (r : CompositionRow) (eid : String) :
    hasEpisode (tbl ++ [r]) eid = (hasEpisode tbl eid || decide (r.episode_id = eid)) := by
  simp [hasEpisode, List.any_append]

theorem episodesDistinct_append (r : CompositionRow) :
    ∀ tbl, episodesDistinct tbl = true → hasEpisode tbl r.episode_id = false →
      episodesDistinct (tbl ++ [r]) = true := by
  intro tbl
  induction tbl with
  | nil =>
      intro _ _
      simp [episodesDistinct, hasEpisode]
  | cons x rest ih =>
      intro hd hr
      simp only [episodesDistinct, Bool.and_eq_true, bnot_eq_true] at hd
      simp only [hasEpisode, List.any_cons, Bool.or_eq_false_iff] at hr
      simp only [List.cons_append, episodesDistinct, Bool.and_eq_true, Bool.not_eq_true',
        List.append_eq]
      refine ⟨?_, ih hd.2 hr.2⟩
      rw [hasEpisode_append_single, Bool.or_eq_false_iff]
      refine ⟨hd.1, ?_⟩
      have hne : x.episode_id ≠ r.episode_id := by
        intro he
        simpa [he] using hr.1
      exact decide_eq_false (fun he => hne he.symm)

theorem applyOp_distinct (tbl : List CompositionRow) (op : DbOp)
    (h : episodesDistinct tbl = true) : episodesDistinct (applyOp tbl op) = true := by
  cases op with
  | insert r =>
      simp only [applyOp]
      split
      · next hcond =>
          rw [Bool.and_eq_true] at hcond
          exact episodesDistinct_append r tbl h (bnot_eq_true ▸ hcond.2)
      · exact h
  | setDuration eid d =>
      simp only [applyOp]
      refine episodesDistinct_map _ (fun row => ?_) tbl h
      dsimp only
      split
      · unfold updateIfChecks; split <;> rfl
      · rfl
  | setStatus eid st =>
      simp only [applyOp]
      refine episodesDistinct_map _ (fun row => ?_) tbl h
      dsimp only
      split
      · unfold updateIfChecks; split <;> rfl
      · rfl

theorem applyOps_distinct (ops : List DbOp) :
    ∀ tbl, episodesDistinct tbl = true → episodesDistinct (applyOps ops tbl) = true := by
  induction ops with
  | nil => intro tbl h; exact h
  | cons op rest ih =>
      intro tbl h
      exact ih _ (applyOp_distinct tbl op h)

/-- Claim C10: every reachable state of the `episode_compositions` table
satisfies the `compositions_duration_positive` CHECK — each persisted
row's `total_duration_seconds` is either NULL or strictly positive, no
matter what sequence of inserts and updates the engine issues. -/
theorem persisted_duration_positive (ops : List DbOp) :
    ((applyOps ops []).all durationPositive) = true := by
  have h := applyOps_all_checks ops [] rfl
  rw [List.all_eq_true] at h ⊢
  intro x hx
  have hx2 := h x hx
  unfold rowChecks at hx2
  rw [Bool.and_eq_true] at hx2
  exact hx2.1

/-- Claim C7: the admission point is an atomic compare-and-set on the
persisted status, so of two simultaneous `requestMerge` calls (serialized
by the CAS) exactly the first succeeds, the second is a no-op, and the
status ends at `Merging`; and the UNIQUE key on `episode_id` keeps at
most one composition row per episode across every reachable table. -/
theorem requestMerge_race_exclusion (s : CompStatus) (ops : List DbOp)
    (hs : s = .draft ∨ s = .failed) :
    (casToMerging s).2 = true
    ∧ (casToMerging (casToMerging s).1).2 = false
    ∧ (casToMerging (casToMerging s).1).1 = .merging
    ∧ episodesDistinct (applyOps ops []) = true := by
  rcases hs with h | h <;> subst h <;>
    exact ⟨by decide, by decide, by decide, applyOps_distinct ops [] rfl⟩

/-- Claim C7 witness: the race property at `Draft` with a concrete
operation sequence. -/
theorem requestMerge_race_exclusion_witness :
    (casToMerging .draft).2 = true
    ∧ (casToMerging (casToMerging .draft).1).2 = false
    ∧ (casToMerging (casToMerging .draft).1).1 = .merging
    ∧ episodesDistinct (applyOps [.insert ⟨"ep-1", some 123, "draft"⟩] []) = true :=
  requestMerge_race_exclusion .draft [.insert ⟨"ep-1", some 123, "draft"⟩] (Or.inl rfl)

/-- Claim C4: with a valid layout, `requestMerge` moves the composition
to `Merging` exactly when its current status is `Draft` or `Failed`; from
`Merging` or `Completed` it is a rejected no-op leaving the record
unchanged; and the resulting status is always one of the four values of
the `compositions_status_check` enum. -/
theorem requestMerge_guard (c : Composition) (layout : LayoutTemplate)
    (snips : List AudioSnippet) (mainDur : ℚ) (tl : Timeline)
    (hok : resolve layout snips mainDur = .ok tl) :
    (((requestMerge c layout snips mainDur).2 = .accepted
        ∧ (requestMerge c layout snips mainDur).1.status = .merging)
      ↔ (c.status = .draft ∨ c.status = .failed))
    ∧ ((c.status = .merging ∨ c.status = .completed) →
        requestMerge c layout snips mainDur = (c, .rejectedBusy))
    ∧ ((requestMerge c layout snips mainDur).1.status = .draft
        ∨ (requestMerge c layout snips mainDur).1.status = .merging
        ∨ (requestMerge c layout snips mainDur).1.status = .completed
        ∨ (requestMerge c layout snips mainDur).1.status = .failed) := by
  have henum : ∀ x : CompStatus, x = .draft ∨ x = .merging ∨ x = .completed ∨ x = .failed := by
    intro x
    cases x
    · exact Or.inl rfl
    · exact Or.inr (Or.inl rfl)
    · exact Or.inr (Or.inr (Or.inl rfl))
    · exact Or.inr (Or.inr (Or.inr rfl))
  by_cases hg : c.status = .draft ∨ c.status = .failed
  · rw [requestMerge, if_pos hg, hok]
    refine ⟨⟨fun _ => hg, fun _ => ?_⟩, ?_, Or.inr (Or.inl rfl)⟩
    · exact ⟨rfl, rfl⟩
    intro hbusy
    exfalso
    rcases hg with h | h <;> rcases hbusy with h2 | h2 <;> rw [h] at h2 <;> exact nomatch h2
  · rw [requestMerge, if_neg hg]
    refine ⟨⟨fun h => (nomatch h.1), fun h => absurd h hg⟩, fun _ => rfl, henum c.status⟩

/-- Claim C4 witness: the guard at a concrete draft composition with
Scenario A's valid layout. -/
theorem requestMerge_guard_witness :
    (((requestMerge draftComposition scenarioALayout scenarioASnips 100).2 = .accepted
        ∧ (requestMerge draftComposition scenarioALayout scenarioASnips 100).1.status = .merging)
      ↔ (draftComposition.status = .draft ∨ draftComposition.status = .failed))
    ∧ ((draftComposition.status = .merging ∨ draftComposition.status = .completed) →
        requestMerge draftComposition scenarioALayout scenarioASnips 100
          = (draftComposition, .rejectedBusy))
    ∧ ((requestMerge draftComposition scenarioALayout scenarioASnips 100).1.status = .draft
        ∨ (requestMerge draftComposition scenarioALayout scenarioASnips 100).1.status = .merging
        ∨ (requestMerge draftComposition scenarioALayout scenarioASnips 100).1.status = .completed
        ∨ (requestMerge draftComposition scenarioALayout scenarioASnips 100).1.status = .failed) :=
  requestMerge_guard draftComposition scenarioALayout scenarioASnips 100
    ⟨[⟨"intro", 0, 5, 5, 0⟩, ⟨"main", 5, 55, 50, 0⟩, ⟨"ad", 55, 65, 10, 0⟩,
      ⟨"main", 65, 115, 50, 0⟩, ⟨"outro", 115, 123, 8, 0⟩], 123⟩
    (by with_unfolding_all rfl)

/-- Claim C6: a composition in `Merging` always terminates: whatever the
stage results, cancellation flags and timeout flags, recording the merge
task's outcome leaves the status `Completed` or `Failed` — and a
cancellation (resp. timeout) observed at the first inter-stage checkpoint
ends in `Failed` with the explicit `Cancelled` (resp. `Timeout`) kind. -/
theorem merging_always_terminates (c : Composition)
    (stageResult : Nat → Option MergeStageError) (cancelRequested timedOut : Nat → Bool)
    (output : MergedAudio) (hc : c.status = .merging) :
    ((finishMerge c (runMergeTask stageResult cancelRequested timedOut output)).status
        = .completed
      ∨ (finishMerge c (runMergeTask stageResult cancelRequested timedOut output)).status
        = .failed)
    ∧ (cancelRequested 0 = true →
        (finishMerge c (runMergeTask stageResult cancelRequested timedOut output)).status
            = .failed
        ∧ (finishMerge c (runMergeTask stageResult cancelRequested timedOut output)).error
            = some .cancelled)
    ∧ (cancelRequested 0 = false → timedOut 0 = true →
        (finishMerge c (runMergeTask stageResult cancelRequested timedOut output)).status
            = .failed
        ∧ (finishMerge c (runMergeTask stageResult cancelRequested timedOut output)).error
            = some .timeout) := by
  refine ⟨?_, ?_, ?_⟩
  · cases hout : runMergeTask stageResult cancelRequested timedOut output with
    | error e => exact Or.inr rfl
    | ok m => exact Or.inl rfl
  · intro h0
    have hout : runMergeTask stageResult cancelRequested timedOut output = .error .cancelled := by
      rw [runMergeTask, pipelineStages, runStages, if_pos h0]
    rw [hout]
    exact ⟨rfl, rfl⟩
  · intro h0 h1
    have hout : runMergeTask stageResult cancelRequested timedOut output = .error .timeout := by
      rw [runMergeTask, pipelineStages, runStages, if_neg (by rw [h0]; exact Bool.false_ne_true),
        if_pos h1]
    rw [hout]
    exact ⟨rfl, rfl⟩

/-- Claim C6 witness: termination at a concrete merging composition with
the cancellation flag raised at the first checkpoint. -/
theorem merging_always_terminates_witness :
    ((finishMerge { draftComposition with status := .merging }
        (runMergeTask (fun _ => none) (fun _ => true) (fun _ => false) ⟨"final.mp3", 123⟩)).status
          = .completed
      ∨ (finishMerge { draftComposition with status := .merging }
        (runMergeTask (fun _ => none) (fun _ => true) (fun _ => false) ⟨"final.mp3", 123⟩)).status
          = .failed)
    ∧ ((fun _ : Nat => true) 0 = true →
        (finishMerge { draftComposition with status := .merging }
          (runMergeTask (fun _ => none) (fun _ => true) (fun _ => false) ⟨"final.mp3", 123⟩)).status
            = .failed
        ∧ (finishMerge { draftComposition with status := .merging }
          (runMergeTask (fun _ => none) (fun _ => true) (fun _ => false) ⟨"final.mp3", 123⟩)).error
            = some .cancelled)
    ∧ ((fun _ : Nat => true) 0 = false → (fun _ : Nat => false) 0 = true →
        (finishMerge { draftComposition with status := .merging }
          (runMergeTask (fun _ => none) (fun _ => true) (fun _ => false) ⟨"final.mp3", 123⟩)).status
            = .failed
        ∧ (finishMerge { draftComposition with status := .merging }
          (runMergeTask (fun _ => none) (fun _ => true) (fun _ => false) ⟨"final.mp3", 123⟩)).error
            = some .timeout) :=
  merging_always_terminates { draftComposition with status := .merging }
    (fun _ => none) (fun _ => true) (fun _ => false) ⟨"final.mp3", 123⟩ rfl

theorem validate_error_of_defective (layout : LayoutTemplate) (snips : List AudioSnippet)
    (mainDur : ℚ) (hdef : layoutDefective layout snips mainDur = true) :
    ∃ e, validate layout snips mainDur = .error e := by
  unfold validate
  cases hfind : layout.segments.find? (refAbsent snips) with
  | some s => exact ⟨_, rfl⟩
  | none =>
    cases hfind2 : layout.segments.find? (kindOutOfRange mainDur) with
    | some s => exact ⟨_, rfl⟩
    | none =>
      have h1 : layout.segments.any (refAbsent snips) = false := by
        rw [List.any_eq_false]
        intro x hx
        simpa using List.find?_eq_none.mp hfind x hx
      have h2 : layout.segments.any (kindOutOfRange mainDur) = false := by
        rw [List.any_eq_false]
        intro x hx
        simpa using List.find?_eq_none.mp hfind2 x hx
      unfold layoutDefective at hdef
      rw [h1, h2] at hdef
      simp only [Bool.false_or] at hdef
      cases hmc : mainCount layout with
      | zero => exact ⟨_, rfl⟩
      | succ n =>
        cases n with
        | zero =>
          rw [hmc] at hdef
          simp at hdef
        | succ m => exact ⟨_, rfl⟩

/-- Claim C5: a layout with an unresolved snippet id, an out-of-range
percentage or timestamp, or a missing/duplicate main-content segment
makes `resolve` return a `ValidationError` synchronously; `requestMerge`
on a draft composition then leaves the record untouched in `Draft` and
submits no merge task; and when a referenced snippet id is absent the
error names that id. -/
theorem resolve_validation_fail_fast (layout : LayoutTemplate) (snips : List AudioSnippet)
    (mainDur : ℚ) (c : Composition) (sid : String) (hc : c.status = .draft)
    (hdef : layoutDefective layout snips mainDur = true) :
    (∃ e, resolve layout snips mainDur = .error e)
    ∧ (requestMerge c layout snips mainDur).1 = c
    ∧ (requestMerge c layout snips mainDur).1.status = .draft
    ∧ ((requestMerge c layout snips mainDur).2).submitsTask = false
    ∧ (firstAbsentRef layout snips = some sid →
        resolve layout snips mainDur = .error (.unresolvedSnippet sid)) := by
  obtain ⟨e, he⟩ := validate_error_of_defective layout snips mainDur hdef
  have hres : resolve layout snips mainDur = .error e := by
    unfold resolve
    rw [he]
  have hreq : requestMerge c layout snips mainDur = (c, .invalid e) := by
    unfold requestMerge
    rw [if_pos (Or.inl hc), hres]
  refine ⟨⟨e, hres⟩, by rw [hreq], by rw [hreq]; exact hc, by rw [hreq]; rfl, ?_⟩
  intro hfa
  unfold firstAbsentRef at hfa
  rcases Option.map_eq_some'.mp hfa with ⟨s, hs, hsid⟩
  have hv : validate layout snips mainDur = .error (.unresolvedSnippet (roleId s)) := by
    unfold validate
    rw [hs]
  rw [hsid] at hv
  unfold resolve
  rw [hv]

/-- Claim C5 witness: Scenario C's layout (mid-roll snippet id "ghost"
absent from the snippet set) at a concrete draft composition. -/
theorem resolve_validation_fail_fast_witness :
    (∃ e, resolve scenarioCLayout scenarioASnips 100 = .error e)
    ∧ (requestMerge draftComposition scenarioCLayout scenarioASnips 100).1 = draftComposition
    ∧ (requestMerge draftComposition scenarioCLayout scenarioASnips 100).1.status = .draft
    ∧ ((requestMerge draftComposition scenarioCLayout scenarioASnips 100).2).submitsTask = false
    ∧ (firstAbsentRef scenarioCLayout scenarioASnips = some "ghost" →
        resolve scenarioCLayout scenarioASnips 100 = .error (.unresolvedSnippet "ghost")) :=
  resolve_validation_fail_fast scenarioCLayout scenarioASnips 100 draftComposition "ghost"
    rfl (by with_unfolding_all decide)

theorem minQ_le_left (a b : ℚ) : minQ a b ≤ a := by
  unfold minQ
  split
  · exact le_refl a
  · next h => exact le_of_lt (lt_of_not_le h)

theorem minQ_le_right (a b : ℚ) : minQ a b ≤ b := by
  unfold minQ
  split
  · next h => exact h
  · exact le_refl b

theorem overlapFor_le_half_left (cf d d2 : ℚ) : overlapFor cf d d2 ≤ d / 2 :=
  le_trans (minQ_le_right cf _) (minQ_le_left _ _)

theorem overlapFor_le_half_right (cf d d2 : ℚ) : overlapFor cf d d2 ≤ d2 / 2 :=
  le_trans (minQ_le_right cf _) (minQ_le_right _ _)

theorem assignTimes_cons (cf t : ℚ) (ref : String) (d : ℚ) (rest : List (String × ℚ)) :
    assignTimes cf t ((ref, d) :: rest)
      = ⟨ref, t, t + d, d, 0⟩ :: assignTimes cf (t + d - restOverlap cf d rest) rest := rfl

theorem assignTimes_chain_le (cf : ℚ) (l : List (String × ℚ)) :
    (∀ p ∈ l, 0 ≤ p.2) → ∀ t : ℚ,
      List.Chain' (fun a b : ResolvedSegment => a.startTime ≤ b.startTime)
        (assignTimes cf t l) := by
  induction l with
  | nil => intro _ t; simp [assignTimes]
  | cons p rest ih =>
      intro hd t
      obtain ⟨ref, d⟩ := p
      rw [assignTimes_cons, List.chain'_cons']
      refine ⟨?_, ih (fun q hq => hd q (List.mem_cons_of_mem _ hq)) _⟩
      intro y hy
      cases rest with
      | nil => simp [assignTimes] at hy
      | cons q rest2 =>
          obtain ⟨ref2, d2⟩ := q
          rw [assignTimes_cons] at hy
          simp only [List.head?_cons, Option.mem_def, Option.some.injEq] at hy
          subst hy
          have h1 : overlapFor cf d d2 ≤ d / 2 := overlapFor_le_half_left cf d d2
          have h2 : 0 ≤ d := hd (ref, d) (List.mem_cons_self _ _)
          simp only [restOverlap]
          linarith

theorem assignTimes_chain_overlap (cf : ℚ) (l : List (String × ℚ)) :
    ∀ t : ℚ,
      List.Chain' (fun a b : ResolvedSegment =>
        a.endTime - b.startTime = overlapFor cf a.duration b.duration)
        (assignTimes cf t l) := by
  induction l with
  | nil => intro t; simp [assignTimes]
  | cons p rest ih =>
      intro t
      obtain ⟨ref, d⟩ := p
      rw [assignTimes_cons, List.chain'_cons']
      refine ⟨?_, ih _⟩
      intro y hy
      cases rest with
      | nil => simp [assignTimes] at hy
      | cons q rest2 =>
          obtain ⟨ref2, d2⟩ := q
          rw [assignTimes_cons] at hy
          simp only [List.head?_cons, Option.mem_def, Option.some.injEq] at hy
          subst hy
          simp only [restOverlap]
          ring

theorem lastEnd_cons_cons (a b : ResolvedSegment) (l : List ResolvedSegment) :
    lastEnd (a :: b :: l) = lastEnd (b :: l) := by
  unfold lastEnd
  rw [List.getLast?_cons_cons]

theorem assignTimes_lastEnd (cf : ℚ) (l : List (String × ℚ)) :
    ∀ t : ℚ, l ≠ [] →
      lastEnd (assignTimes cf t l)
        = t + durationSum (assignTimes cf t l) - (overlapsOf (assignTimes cf t l)).sum := by
  induction l with
  | nil => intro t h; exact absurd rfl h
  | cons p rest ih =>
      intro t _
      obtain ⟨ref, d⟩ := p
      cases rest with
      | nil =>
          simp [assignTimes, lastEnd, durationSum, overlapsOf]
      | cons q rest2 =>
          obtain ⟨ref2, d2⟩ := q
          rw [assignTimes_cons]
          rw [assignTimes_cons cf (t + d - restOverlap cf d ((ref2, d2) :: rest2))]
          rw [lastEnd_cons_cons, ← assignTimes_cons cf (t + d - restOverlap cf d ((ref2, d2) :: rest2))]
          have hih := ih (t + d - restOverlap cf d ((ref2, d2) :: rest2)) (by simp)
          rw [hih]
          rw [assignTimes_cons cf (t + d - restOverlap cf d ((ref2, d2) :: rest2))]
          simp only [durationSum, List.map_cons, List.sum_cons, overlapsOf]
          simp only [restOverlap]
          ring

theorem assignTimes_nonOverlap (cf : ℚ) (l : List (String × ℚ)) :
    ∀ (t leftOv : ℚ), (∀ p ∈ l, 0 ≤ p.2) →
      (∀ ref d rest, l = (ref, d) :: rest → leftOv ≤ d / 2) →
      (nonOverlapAux leftOv (assignTimes cf t l)).all (fun x => decide (0 ≤ x)) = true := by
  induction l with
  | nil => intro t leftOv _ _; simp [assignTimes, nonOverlapAux]
  | cons p rest ih =>
      intro t leftOv hd hlo
      obtain ⟨ref, d⟩ := p
      have hlo' : leftOv ≤ d / 2 := hlo ref d rest rfl
      have hd0 : 0 ≤ d := hd (ref, d) (List.mem_cons_self _ _)
      cases rest with
      | nil =>
          simp only [assignTimes, nonOverlapAux, List.all_cons, List.all_nil, Bool.and_true]
          rw [decide_eq_true_iff]
          linarith
      | cons q rest2 =>
          obtain ⟨ref2, d2⟩ := q
          rw [assignTimes_cons]
          rw [assignTimes_cons cf (t + d - restOverlap cf d ((ref2, d2) :: rest2))]
          simp only [nonOverlapAux, List.all_cons, Bool.and_eq_true]
          constructor
          · rw [decide_eq_true_iff]
            have hov : overlapFor cf d d2 ≤ d / 2 := overlapFor_le_half_left cf d d2
            simp only [restOverlap]
            linarith
          · have hrw : (⟨ref, t, t + d, d, 0⟩ : ResolvedSegment).endTime
                - (⟨ref2, t + d - restOverlap cf d ((ref2, d2) :: rest2),
                    t + d - restOverlap cf d ((ref2, d2) :: rest2) + d2, d2, 0⟩
                      : ResolvedSegment).startTime
                = overlapFor cf d d2 := by
              simp only [restOverlap]
              ring
            rw [hrw, ← assignTimes_cons cf (t + d - restOverlap cf d ((ref2, d2) :: rest2))]
            apply ih _ (overlapFor cf d d2)
                (fun q hq => hd q (List.mem_cons_of_mem _ hq))
            intro ref' d' rest' heq
            have hd2 : d' = d2 := by
              injection heq with h1 _
              exact (congrArg Prod.snd h1).symm
            rw [hd2]
            exact overlapFor_le_half_right cf d d2

theorem mem_insertLe {α : Type} (le : α → α → Bool) (a x : α) :
    ∀ l : List α, (x ∈ insertLe le a l ↔ x = a ∨ x ∈ l) := by
  intro l
  induction l with
  | nil => simp [insertLe]
  | cons b bs ih =>
      simp only [insertLe]
      split
      · simp [List.mem_cons]
      · simp only [List.mem_cons, ih]
        tauto

theorem mem_sortLe {α : Type} (le : α → α → Bool) (x : α) :
    ∀ l : List α, (x ∈ sortLe le l ↔ x ∈ l) := by
  intro l
  induction l with
  | nil => simp [sortLe]
  | cons b bs ih =>
      simp only [sortLe, mem_insertLe, List.mem_cons, ih]

theorem head_insertLe {α : Type} (le : α → α → Bool) (a : α) :
    ∀ (l : List α) (y : α), (insertLe le a l).head? = some y → y = a ∨ l.head? = some y := by
  intro l y
  cases l with
  | nil =>
      simp only [insertLe, List.head?_cons]
      intro h
      exact Or.inl (Option.some.inj h).symm
  | cons b bs =>
      simp only [insertLe]
      split
      · simp only [List.head?_cons]
        intro h
        exact Or.inl (Option.some.inj h).symm
      · simp only [List.head?_cons]
        intro h
        exact Or.inr h

theorem midLe_time (a b : MidPlacement) (h : midLe a b = true) : a.time ≤ b.time := by
  unfold midLe at h
  rw [Bool.or_eq_true, Bool.and_eq_true] at h
  rcases h with h | ⟨h, _⟩
  · exact le_of_lt (of_decide_eq_true h)
  · exact le_of_eq (of_decide_eq_true h)

theorem midLe_time_neg (a b : MidPlacement) (h : midLe a b = false) : b.time ≤ a.time := by
  unfold midLe at h
  rw [Bool.or_eq_false_iff] at h
  exact le_of_not_lt (of_decide_eq_false h.1)

theorem chain_time_insertLe (a : MidPlacement) :
    ∀ l : List MidPlacement,
      List.Chain' (fun x y : MidPlacement => x.time ≤ y.time) l →
      List.Chain' (fun x y : MidPlacement => x.time ≤ y.time) (insertLe midLe a l) := by
  intro l
  induction l with
  | nil => intro _; simp [insertLe]
  | cons b bs ih =>
      intro hch
      rw [List.chain'_cons'] at hch
      simp only [insertLe]
      split
      · next hle =>
          rw [List.chain'_cons]
          exact ⟨midLe_time a b hle, List.chain'_cons'.mpr hch⟩
      · next hle =>
          have hf : midLe a b = false := by
            cases hmb : midLe a b
            · rfl
            · exact absurd hmb hle
          rw [List.chain'_cons']
          refine ⟨?_, ih hch.2⟩
          intro y hy
          rcases head_insertLe midLe a bs y hy with h | hhd
          · rw [h]
            exact midLe_time_neg a b hf
          · exact hch.1 y hhd

theorem chain_time_sortLe :
    ∀ l : List MidPlacement,
      List.Chain' (fun x y : MidPlacement => x.time ≤ y.time) (sortLe midLe l) := by
  intro l
  induction l with
  | nil => simp [sortLe]
  | cons a as ih => exact chain_time_insertLe a _ ih

theorem pairwise_time_sortLe (l : List MidPlacement) :
    List.Pairwise (fun x y : MidPlacement => x.time ≤ y.time) (sortLe midLe l) := by
  haveI : IsTrans MidPlacement (fun x y : MidPlacement => x.time ≤ y.time) :=
    ⟨fun _ _ _ hab hbc => le_trans hab hbc⟩
  exact List.chain'_iff_pairwise.mp (chain_time_sortLe l)

theorem lookupDuration_nonneg (snips : List AudioSnippet)
    (hsn : ∀ a ∈ snips, 0 ≤ a.durationSeconds) (i : String) :
    0 ≤ lookupDuration snips i := by
  unfold lookupDuration findSnippet
  cases hf : snips.find? (fun a => a.id = i) with
  | none => exact le_refl 0
  | some a => exact hsn a (List.mem_of_find?_eq_some hf)

theorem validate_ok_ranges (layout : LayoutTemplate) (snips : List AudioSnippet) (mainDur : ℚ)
    (h : validate layout snips mainDur = .ok ()) :
    ∀ s ∈ layout.segments, kindOutOfRange mainDur s = false := by
  unfold validate at h
  split at h
  · exact (nomatch h)
  · split at h
    · exact (nomatch h)
    · next hfind2 =>
        intro s hs
        simpa using List.find?_eq_none.mp hfind2 s hs

theorem midOf_time_range (mainDur : ℚ) (hm : 0 ≤ mainDur) (s : SegmentSpec) (m : MidPlacement)
    (hk : kindOutOfRange mainDur s = false) (hmo : midOf mainDur s = some m) :
    0 ≤ m.time ∧ m.time ≤ mainDur := by
  obtain ⟨k, r, o⟩ := s
  cases r with
  | mainContent => cases k <;> simp [midOf] at hmo
  | snippet sid =>
      cases k with
      | preRoll => simp [midOf] at hmo
      | postRoll => simp [midOf] at hmo
      | percentage p =>
          simp only [midOf] at hmo
          simp only [kindOutOfRange, Bool.or_eq_false_iff] at hk
          have hp0 : 0 ≤ p := le_of_not_lt (of_decide_eq_false hk.1)
          have hp1 : p ≤ 100 := le_of_not_lt (of_decide_eq_false hk.2)
          obtain rfl := Option.some.inj hmo
          constructor
          · exact mul_nonneg (div_nonneg hp0 (by norm_num)) hm
          · calc p / 100 * mainDur ≤ 1 * mainDur := by
                  apply mul_le_mul_of_nonneg_right _ hm
                  rw [div_le_one (by norm_num : (0:ℚ) < 100)]
                  linarith
              _ = mainDur := one_mul mainDur
      | timestamp t =>
          simp only [midOf] at hmo
          simp only [kindOutOfRange, Bool.or_eq_false_iff] at hk
          have ht0 : 0 ≤ t := le_of_not_lt (of_decide_eq_false hk.1)
          have ht1 : t ≤ mainDur := le_of_not_lt (of_decide_eq_false hk.2)
          obtain rfl := Option.some.inj hmo
          exact ⟨ht0, ht1⟩

theorem sortedMids_time_range (layout : LayoutTemplate) (snips : List AudioSnippet)
    (mainDur : ℚ) (hm : 0 ≤ mainDur)
    (hval : validate layout snips mainDur = .ok ()) :
    ∀ m ∈ sortedMids layout mainDur, 0 ≤ m.time ∧ m.time ≤ mainDur := by
  intro m hmem
  rw [sortedMids, mem_sortLe] at hmem
  rcases List.mem_filterMap.mp hmem with ⟨s, hsmem, hmo⟩
  exact midOf_time_range mainDur hm s m (validate_ok_ranges layout snips mainDur hval s hsmem) hmo

theorem splitMain_nonneg (snips : List AudioSnippet) (mainDur : ℚ)
    (hlu : ∀ i, 0 ≤ lookupDuration snips i) :
    ∀ (mids : List MidPlacement) (prev : ℚ), 0 ≤ prev → prev ≤ mainDur →
      (∀ m ∈ mids, prev ≤ m.time) → (∀ m ∈ mids, m.time ≤ mainDur) →
      List.Pairwise (fun a b : MidPlacement => a.time ≤ b.time) mids →
      ∀ p ∈ splitMain snips mainDur prev mids, 0 ≤ p.2 := by
  intro mids
  induction mids with
  | nil =>
      intro prev _ h1 _ _ _ p hp
      simp only [splitMain, List.mem_singleton] at hp
      subst hp
      simp only
      linarith
  | cons m rest ih =>
      intro prev h0 _ hlo hhi hpw p hp
      rcases List.pairwise_cons.mp hpw with ⟨hm1, hrest⟩
      have hmt : prev ≤ m.time := hlo m (List.mem_cons_self _ _)
      have hmd : m.time ≤ mainDur := hhi m (List.mem_cons_self _ _)
      simp only [splitMain, List.mem_cons] at hp
      rcases hp with rfl | rfl | hp
      · simp only
        linarith
      · exact hlu m.snippetId
      · exact ih m.time (le_trans h0 hmt) hmd hm1
          (fun m' hm' => hhi m' (List.mem_cons_of_mem _ hm')) hrest p hp

theorem splitMain_ne_nil (snips : List AudioSnippet) (mainDur : ℚ)
    (mids : List MidPlacement) (prev : ℚ) :
    splitMain snips mainDur prev mids ≠ [] := by
  cases mids <;> simp [splitMain]

theorem segmentDurations_ne_nil (layout : LayoutTemplate) (snips : List AudioSnippet)
    (mainDur : ℚ) : segmentDurations layout snips mainDur ≠ [] := by
  rw [segmentDurations]
  intro h
  rcases List.append_eq_nil.mp h with ⟨h1, _⟩
  rcases List.append_eq_nil.mp h1 with ⟨_, h3⟩
  exact splitMain_ne_nil snips mainDur _ 0 h3

theorem segmentDurations_nonneg (layout : LayoutTemplate) (snips : List AudioSnippet)
    (mainDur : ℚ) (hsn : ∀ a ∈ snips, 0 ≤ a.durationSeconds) (hm : 0 ≤ mainDur)
    (hval : validate layout snips mainDur = .ok ()) :
    ∀ p ∈ segmentDurations layout snips mainDur, 0 ≤ p.2 := by
  have hlu : ∀ i, 0 ≤ lookupDuration snips i := lookupDuration_nonneg snips hsn
  intro p hp
  rw [segmentDurations] at hp
  simp only [List.mem_append] at hp
  rcases hp with (hp | hp) | hp
  · rcases List.mem_map.mp hp with ⟨i, _, rfl⟩
    exact hlu i
  · have hr := sortedMids_time_range layout snips mainDur hm hval
    have hpw : List.Pairwise (fun a b : MidPlacement => a.time ≤ b.time)
        (sortedMids layout mainDur) := by
      rw [sortedMids]
      exact pairwise_time_sortLe _
    exact splitMain_nonneg snips mainDur hlu (sortedMids layout mainDur) 0 le_rfl hm
      (fun m hm' => (hr m hm').1) (fun m hm' => (hr m hm').2) hpw p hp
  · rcases List.mem_map.mp hp with ⟨i, _, rfl⟩
    exact hlu i

theorem resolve_ok_parts (layout : LayoutTemplate) (snips : List AudioSnippet)
    (mainDur : ℚ) (tl : Timeline) (hok : resolve layout snips mainDur = .ok tl) :
    validate layout snips mainDur = .ok ()
    ∧ tl.segments
        = assignTimes layout.crossfadeDurationSeconds 0 (segmentDurations layout snips mainDur)
    ∧ tl.totalDurationSeconds = lastEnd tl.segments := by
  unfold resolve at hok
  split at hok
  · exact (nomatch hok)
  · next u hv =>
      injection hok with h
      subst h
      cases u
      exact ⟨hv, rfl, rfl⟩

/-- Claim C2: every timeline `resolve` produces from a valid layout
(well-formed snippet durations, nonnegative main duration) has its
segments ordered by `startTime`, and the sum of segment durations minus
the sum of adjacent overlaps equals `totalDurationSeconds` within the 1ms
tolerance (it is exact in ℚ). -/
theorem resolve_ordered_and_duration_sum (layout : LayoutTemplate) (snips : List AudioSnippet)
    (mainDur : ℚ) (tl : Timeline) (hok : resolve layout snips mainDur = .ok tl)
    (hsn : ∀ a ∈ snips, 0 ≤ a.durationSeconds) (hm : 0 ≤ mainDur) :
    List.Chain' (fun a b : ResolvedSegment => a.startTime ≤ b.startTime) tl.segments
    ∧ |durationSum tl.segments - (overlapsOf tl.segments).sum - tl.totalDurationSeconds|
        ≤ 1 / 1000 := by
  obtain ⟨hv, hsegs, htot⟩ := resolve_ok_parts layout snips mainDur tl hok
  have hnn := segmentDurations_nonneg layout snips mainDur hsn hm hv
  constructor
  · rw [hsegs]
    exact assignTimes_chain_le layout.crossfadeDurationSeconds _ hnn 0
  · have hne := segmentDurations_ne_nil layout snips mainDur
    have hle := assignTimes_lastEnd layout.crossfadeDurationSeconds
      (segmentDurations layout snips mainDur) 0 hne
    have h0 : durationSum tl.segments - (overlapsOf tl.segments).sum
        - tl.totalDurationSeconds = 0 := by
      rw [htot, hsegs, hle]
      ring
    rw [h0, abs_zero]
    norm_num

/-- Claim C2 witness: the invariant at Scenario A's concrete input. -/
theorem resolve_ordered_and_duration_sum_witness :
    List.Chain' (fun a b : ResolvedSegment => a.startTime ≤ b.startTime)
      scenarioATimeline.segments
    ∧ |durationSum scenarioATimeline.segments - (overlapsOf scenarioATimeline.segments).sum
        - scenarioATimeline.totalDurationSeconds| ≤ 1 / 1000 :=
  resolve_ordered_and_duration_sum scenarioALayout scenarioASnips 100 scenarioATimeline
    (by with_unfolding_all rfl) (by with_unfolding_all decide) (by with_unfolding_all decide)

/-- Claim C3: in every timeline `resolve` produces, each adjacent pair
overlaps by exactly `min(crossfadeDurationSeconds, dur_a / 2, dur_b / 2)`;
hence no overlap exceeds half of either segment's duration, and every
segment's non-overlapped portion has nonnegative length. -/
theorem resolve_overlap_sizing (layout : LayoutTemplate) (snips : List AudioSnippet)
    (mainDur : ℚ) (tl : Timeline) (hok : resolve layout snips mainDur = .ok tl)
    (hsn : ∀ a ∈ snips, 0 ≤ a.durationSeconds) (hm : 0 ≤ mainDur) :
    List.Chain' (fun a b : ResolvedSegment => a.endTime - b.startTime
        = minQ layout.crossfadeDurationSeconds (minQ (a.duration / 2) (b.duration / 2)))
      tl.segments
    ∧ List.Chain' (fun a b : ResolvedSegment =>
        a.endTime - b.startTime ≤ a.duration / 2 ∧ a.endTime - b.startTime ≤ b.duration / 2)
      tl.segments
    ∧ (nonOverlapPortions tl.segments).all (fun x => decide (0 ≤ x)) = true := by
  obtain ⟨hv, hsegs, _⟩ := resolve_ok_parts layout snips mainDur tl hok
  have hnn := segmentDurations_nonneg layout snips mainDur hsn hm hv
  have hch := assignTimes_chain_overlap layout.crossfadeDurationSeconds
    (segmentDurations layout snips mainDur) 0
  refine ⟨?_, ?_, ?_⟩
  · rw [hsegs]
    exact hch
  · rw [hsegs]
    refine List.Chain'.imp ?_ hch
    intro a b hab
    rw [hab]
    exact ⟨overlapFor_le_half_left _ _ _, overlapFor_le_half_right _ _ _⟩
  · rw [hsegs, nonOverlapPortions]
    apply assignTimes_nonOverlap layout.crossfadeDurationSeconds _ 0 0 hnn
    intro ref d rest heq
    have hd0 : 0 ≤ d := hnn (ref, d) (by rw [heq]; exact List.mem_cons_self _ _)
    linarith

/-- Claim C3 witness: overlap sizing at Scenario A's concrete input. -/
theorem resolve_overlap_sizing_witness :
    List.Chain' (fun a b : ResolvedSegment => a.endTime - b.startTime
        = minQ scenarioALayout.crossfadeDurationSeconds
            (minQ (a.duration / 2) (b.duration / 2)))
      scenarioATimeline.segments
    ∧ List.Chain' (fun a b : ResolvedSegment =>
        a.endTime - b.startTime ≤ a.duration / 2 ∧ a.endTime - b.startTime ≤ b.duration / 2)
      scenarioATimeline.segments
    ∧ (nonOverlapPortions scenarioATimeline.segments).all (fun x => decide (0 ≤ x)) = true :=
  resolve_overlap_sizing scenarioALayout scenarioASnips 100 scenarioATimeline
    (by with_unfolding_all rfl) (by with_unfolding_all decide) (by with_unfolding_all decide)

end PodStudio
